import Mathlib

/-!
Verification of the baseline store and matcher of the file-integrity
checker (src/main.js) against its natural-language specification.

The JavaScript source is shallowly embedded: the persisted localStorage
state becomes a key-indexed map from strings to stored values, JSON
values become an inductive type, and each store operation becomes a pure
Lean function translated line by line from the corresponding function in
src/main.js.
-/

namespace IntegrityChecker

/-- A JSON value, as produced by JSON.parse / consumed by JSON.stringify.
Numbers in this program are all non-negative integers (byte sizes and
millisecond timestamps), so they are modelled as Nat. -/
inductive Json where
  | null : Json
  | bool (b : Bool) : Json
  | num (n : Nat) : Json
  | str (s : String) : Json
  | arr (elems : List Json) : Json
  | obj (fields : List (String × Json)) : Json

/-- The keys of a JSON object, in serialization order (empty for
non-objects). -/
def Json.keys : Json → List String
  | .obj fields => fields.map Prod.fst
  | _ => []

/-- The JSON-primitive type tag of a value, as named by `typeof` /
the JSON grammar. -/
def Json.typeTag : Json → String
  | .null => "null"
  | .bool _ => "boolean"
  | .num _ => "number"
  | .str _ => "string"
  | .arr _ => "array"
  | .obj _ => "object"

/-- Whether a JSON value is an array (a sequence). -/
def Json.isArr : Json → Bool
  | .arr _ => true
  | _ => false

/-- A baseline record as constructed by `addRecord` in src/main.js:
`{ id, name, size, lastModified, hash, savedAt }`. -/
structure BaselineRecord where
  id : String
  name : String
  size : Nat
  lastModified : Nat
  hash : String
  savedAt : Nat
deriving Repr, DecidableEq

/-- Serialization of one record, with the keys and key order that
`JSON.stringify` emits for the object literal pushed in `addRecord`. -/
def recordToJson (r : BaselineRecord) : Json :=
  .obj [("id", .str r.id), ("name", .str r.name), ("size", .num r.size),
        ("lastModified", .num r.lastModified), ("hash", .str r.hash),
        ("savedAt", .num r.savedAt)]

/-- Serialization of the whole collection: a JSON array of record
objects, as written by `saveRecords`. -/
def encodeRecords (l : List BaselineRecord) : Json :=
  .arr (l.map recordToJson)

/-- A string held in localStorage, abstracted by how `JSON.parse` treats
it: either it parses to a unique JSON value, or `JSON.parse` throws
(this also covers the empty string, which the code short-circuits to the
same result). -/
inductive StoredString where
  | parses (j : Json) : StoredString
  | invalid : StoredString

/-- localStorage: a map from keys to stored strings; `none` means the
key is absent (getItem returns null). -/
def Storage : Type := String → Option StoredString

/-- The storage key used by the program (src/main.js line 29). -/
def STORE_KEY : String := "integrityRecords_v1"

/-- `localStorage.setItem k v`. -/
def setItem (s : Storage) (k : String) (v : StoredString) : Storage :=
  fun k' => if k' = k then some v else s k'

/-- `localStorage.removeItem k`. -/
def removeItem (s : Storage) (k : String) : Storage :=
  fun k' => if k' = k then none else s k'

/-- `loadRecords` (src/main.js lines 53-60): read the entry under
STORE_KEY; if absent (or empty) return `[]`; otherwise return
`JSON.parse(raw)`, and return `[]` if the parse throws. Note that a
successfully parsed value is returned as-is, whatever its shape. -/
def loadRecordsRaw (s : Storage) : Json :=
  match s STORE_KEY with
  | none => .arr []
  | some .invalid => .arr []
  | some (.parses j) => j

/-- `saveRecords` (src/main.js lines 62-64): store
`JSON.stringify(list)` under STORE_KEY. -/
def saveRecords (s : Storage) (l : List BaselineRecord) : Storage :=
  setItem s STORE_KEY (.parses (encodeRecords l))

/-- `addRecord` (src/main.js lines 104-118) at the record-collection
level: append a record built from the supplied fields, the generated id
(`crypto.randomUUID()`) and the current time (`Date.now()`), both passed
in here as parameters since they come from the environment; return the
updated collection and the new id. -/
def addRecord (prior : List BaselineRecord) (name : String) (size lastModified : Nat)
    (hash : String) (freshId : String) (now : Nat) : List BaselineRecord × String :=
  (prior ++ [{ id := freshId, name := name, size := size,
               lastModified := lastModified, hash := hash, savedAt := now }], freshId)

/-- `deleteRecord` (src/main.js lines 121-125) at the record-collection
level: keep exactly the records whose id differs from the argument. -/
def deleteRecord (l : List BaselineRecord) (id : String) : List BaselineRecord :=
  l.filter (fun r => r.id != id)

/-- `clearAllRecords` (src/main.js lines 128-131): remove the STORE_KEY
entry from storage. -/
def clearAllRecords (s : Storage) : Storage :=
  removeItem s STORE_KEY

/-- `findByDigest`, as implemented inline in the verify handler
(src/main.js line 220): `list.find(r => r.hash === currentHash)`. -/
def findByDigest (digest : String) (l : List BaselineRecord) : Option BaselineRecord :=
  l.find? (fun r => r.hash == digest)

/-- `findByName`, as implemented inline in the verify handler
(src/main.js line 232): `list.filter(r => r.name === f.name)`. -/
def findByName (name : String) (l : List BaselineRecord) : List BaselineRecord :=
  l.filter (fun r => r.name == name)

/-- Outcome of the whole-store verify flow (src/main.js lines 198-260). -/
inductive VerifyOutcome where
  | noBaselines (digest : String) : VerifyOutcome
  | matched (rec : BaselineRecord) : VerifyOutcome
  | noMatchSameName (recs : List BaselineRecord) : VerifyOutcome
  | noMatch : VerifyOutcome
deriving Repr, DecidableEq

/-- The verify decision procedure (src/main.js lines 206-256), over its
three inputs: the computed digest, the candidate's filename and the
record collection. -/
def verify (currentHash : String) (fname : String) (l : List BaselineRecord) :
    VerifyOutcome :=
  if l.length = 0 then
    .noBaselines currentHash
  else
    match l.find? (fun r => r.hash == currentHash) with
    | some m => .matched m
    | none =>
      let sameName := l.filter (fun r => r.name == fname)
      if sameName.length ≠ 0 then .noMatchSameName sameName
      else .noMatch

/-- Outcome of the quick-verify flow (src/main.js lines 298-339). -/
inductive QuickOutcome where
  | qmatched (rec : BaselineRecord) : QuickOutcome
  | qmismatch (rec : BaselineRecord) : QuickOutcome
deriving Repr, DecidableEq

/-- The quick-verify decision (src/main.js lines 309-333): look up the
pre-selected record by id; silently stop if it is gone; otherwise
compare the computed digest against exactly that record's hash. -/
def quickVerify (l : List BaselineRecord) (id : String) (h : String) :
    Option QuickOutcome :=
  match l.find? (fun r => r.id == id) with
  | none => none
  | some rec =>
    if h == rec.hash then some (.qmatched rec) else some (.qmismatch rec)

/-- `b.toString(16).padStart(2, "0")` for one byte (src/main.js line 38):
lowercase hexadecimal digits, left-padded with zeros to length 2. -/
def byteToHex (b : Nat) : String :=
  let s := String.mk (Nat.toDigits 16 b)
  String.mk (List.replicate (2 - s.length) '0') ++ s

/-- `toHex` (src/main.js lines 32-41): map each byte to its two-digit
lowercase hex form and join. -/
def toHex (bytes : List Nat) : String :=
  String.join (bytes.map byteToHex)

/-- `sha256OfFile` (src/main.js lines 44-50), with the hashing primitive
`crypto.subtle.digest("SHA-256", ...)` abstracted as a function from
file bytes to digest bytes (out of scope per the spec): hex-encode its
output. -/
def sha256OfFile (sha : List Nat → List Nat) (file : List Nat) : String :=
  toHex (sha file)

/-- The sixteen lowercase hexadecimal digit characters. -/
def hexChars : List Char :=
  "0123456789abcdef".data

/-- The export flow (src/main.js lines 345-357) serializes
`loadRecords()` with `JSON.stringify(..., null, 2)`; at the JSON-value
level (indentation being cosmetic) the exported document is exactly the
loaded value. -/
def exportedJson (s : Storage) : Json :=
  loadRecordsRaw s

/-- The field names of a JSON object paired with the JSON-primitive type
of each field's value (empty for non-objects). -/
def Json.fieldTypes : Json → List (String × String)
  | .obj fields => fields.map (fun p => (p.1, p.2.typeTag))
  | _ => []

/-- A concrete record used to instantiate the theorems. -/
def sampleRec : BaselineRecord :=
  { id := "id0", name := "a.txt", size := 10, lastModified := 20,
    hash := "abc", savedAt := 30 }

/-- A second concrete record with the same name but a different hash. -/
def sampleRec2 : BaselineRecord :=
  { id := "id1", name := "a.txt", size := 11, lastModified := 21,
    hash := "def", savedAt := 31 }

/-- Storage with no entry at all. -/
def emptyStore : Storage := fun _ => none

/-- Storage whose STORE_KEY entry is the valid JSON text "5": it parses
fine but is not an array of records. -/
def badStore : Storage :=
  fun k => if k = STORE_KEY then some (.parses (.num 5)) else none

end IntegrityChecker

namespace IntegrityChecker

/-- C5: `remove(id)` deletes the record with matching id if present and
is a no-op (not an error) if absent: after `deleteRecord`, the
collection never contains a record with that id, and deleting a
nonexistent id leaves the collection unchanged (it is total, hence never
an error). -/
theorem deleteRecord_spec (l : List BaselineRecord) (id : String) :
    (∀ r ∈ deleteRecord l id, r.id ≠ id) ∧
    ((∀ r ∈ l, r.id ≠ id) → deleteRecord l id = l) := by
  constructor
  · intro r hr
    have h := (List.mem_filter.mp hr).2
    exact bne_iff_ne.mp h
  · intro h
    refine List.filter_eq_self.mpr ?_
    intro r hr
    exact bne_iff_ne.mpr (h r hr)

/-- Witness for C5 at a concrete input: deleting an id not present in
the one-record store leaves it unchanged. -/
theorem deleteRecord_spec_witness :
    deleteRecord [sampleRec] "zz" = [sampleRec] :=
  (deleteRecord_spec [sampleRec] "zz").2 (by decide)

/-- C10: `remove(id)` removes every record whose id equals the argument
(not only the first) and keeps the remaining records, with fields
unchanged and relative order preserved (the result is a sublist of the
input whose members are exactly the input records with a different id). -/
theorem deleteRecord_frame (l : List BaselineRecord) (id : String) :
    (deleteRecord l id).Sublist l ∧
    (∀ r, r ∈ deleteRecord l id ↔ r ∈ l ∧ r.id ≠ id) := by
  refine ⟨List.filter_sublist l, fun r => ?_⟩
  rw [deleteRecord, List.mem_filter, bne_iff_ne]

/-- Witness for C10 at a concrete input: deleting sampleRec's id from a
two-record store keeps exactly the other record. -/
theorem deleteRecord_frame_witness :
    (deleteRecord [sampleRec, sampleRec2] "id0").Sublist [sampleRec, sampleRec2] :=
  (deleteRecord_frame [sampleRec, sampleRec2] "id0").1

/-- C6: `clear()` removes all records unconditionally: for every prior
storage state, clearing and then loading yields the empty sequence. -/
theorem clearAll_then_list_empty (s : Storage) :
    loadRecordsRaw (clearAllRecords s) = Json.arr [] := by
  rw [loadRecordsRaw, clearAllRecords, removeItem]
  simp

/-- C7: `findByDigest` returns the first record in stored order whose
hash equals the argument under exact (hence case-sensitive) string
comparison, and returns none exactly when no record's hash equals it. -/
theorem findByDigest_spec (digest : String) (l : List BaselineRecord) :
    (∀ r, findByDigest digest l = some r →
       r.hash = digest ∧
       ∃ l₁ l₂, l = l₁ ++ r :: l₂ ∧ ∀ r' ∈ l₁, r'.hash ≠ digest) ∧
    (findByDigest digest l = none ↔ ∀ r ∈ l, r.hash ≠ digest) := by
  constructor
  · intro r h
    rw [findByDigest, List.find?_eq_some] at h
    obtain ⟨hp, l₁, l₂, hdec, hfirst⟩ := h
    refine ⟨beq_iff_eq.mp hp, l₁, l₂, hdec, fun r' hr' => ?_⟩
    have := hfirst r' hr'
    simpa using this
  · rw [findByDigest, List.find?_eq_none]
    constructor
    · intro h r hr
      have := h r hr
      simpa using this
    · intro h r hr
      simpa using h r hr

/-- Witness for C7 at a concrete input: in a two-record store whose
second record carries the digest, `findByDigest` returns that record
and a decomposition showing it is the first match. -/
theorem findByDigest_spec_witness :
    sampleRec2.hash = "def" ∧
    ∃ l₁ l₂, [sampleRec, sampleRec2] = l₁ ++ sampleRec2 :: l₂ ∧
      ∀ r' ∈ l₁, r'.hash ≠ "def" :=
  (findByDigest_spec "def" [sampleRec, sampleRec2]).1 sampleRec2 (by decide)

/-- Persisting a collection and reading it back yields exactly its
encoding as a JSON array (shared helper for the store operations). -/
theorem loadRecords_saveRecords (s : Storage) (l : List BaselineRecord) :
    loadRecordsRaw (saveRecords s l) = encodeRecords l := by
  rw [loadRecordsRaw, saveRecords, setItem]
  simp

/-- C4: `add` appends a record built from the supplied fields, the fresh
id and the current timestamp at the end of the prior collection, returns
the new id, persists the full updated collection (loading it back gives
its encoding), leaves the result exactly one record longer, preserves
all supplied fields unchanged, and keeps ids unique whenever the fresh
id does not already occur. -/
theorem addRecord_spec (prior : List BaselineRecord) (name : String)
    (size lastModified : Nat) (hash : String) (freshId : String) (now : Nat) :
    (addRecord prior name size lastModified hash freshId now).2 = freshId ∧
    (addRecord prior name size lastModified hash freshId now).1 =
      prior ++ [{ id := freshId, name := name, size := size,
                  lastModified := lastModified, hash := hash, savedAt := now }] ∧
    (addRecord prior name size lastModified hash freshId now).1.length =
      prior.length + 1 ∧
    (∀ s : Storage,
      loadRecordsRaw (saveRecords s (addRecord prior name size lastModified hash freshId now).1) =
        encodeRecords (addRecord prior name size lastModified hash freshId now).1) ∧
    ((prior.map BaselineRecord.id).Nodup → freshId ∉ prior.map BaselineRecord.id →
      ((addRecord prior name size lastModified hash freshId now).1.map BaselineRecord.id).Nodup) := by
  refine ⟨rfl, rfl, by simp [addRecord], fun s => loadRecords_saveRecords s _, ?_⟩
  intro hnodup hfresh
  rw [addRecord]
  simp only [List.map_append, List.map_cons, List.map_nil, List.nodup_append]
  refine ⟨hnodup, List.nodup_singleton _, ?_⟩
  intro a ha hb
  simp only [List.mem_singleton] at hb
  subst hb
  exact hfresh ha

/-- Witness for C4 at a concrete input: adding to the one-record store
keeps the ids unique. -/
theorem addRecord_spec_witness :
    ((addRecord [sampleRec] "b.txt" 5 6 "bbb" "id9" 7).1.map BaselineRecord.id).Nodup :=
  (addRecord_spec [sampleRec] "b.txt" 5 6 "bbb" "id9" 7).2.2.2.2 (by decide) (by decide)

/-- C1: the verify flow follows the four-step decision procedure: empty
store reports the no-baselines outcome carrying the computed digest;
otherwise a record whose hash equals the digest yields MATCH carrying
the first such record in stored order; otherwise, if some record's name
equals the candidate filename, the outcome is NO-MATCH-BUT-SAME-NAME
carrying exactly the same-name records in stored order; otherwise the
outcome is NO-MATCH. -/
theorem verify_decision (h fname : String) (l : List BaselineRecord) :
    (l = [] → verify h fname l = .noBaselines h) ∧
    (∀ l₁ r l₂, l = l₁ ++ r :: l₂ → r.hash = h → (∀ r' ∈ l₁, r'.hash ≠ h) →
      verify h fname l = .matched r) ∧
    (l ≠ [] → (∀ r ∈ l, r.hash ≠ h) → (∃ r ∈ l, r.name = fname) →
      ∃ recs, verify h fname l = .noMatchSameName recs ∧
        recs.Sublist l ∧ ∀ r, r ∈ recs ↔ r ∈ l ∧ r.name = fname) ∧
    (l ≠ [] → (∀ r ∈ l, r.hash ≠ h) → (∀ r ∈ l, r.name ≠ fname) →
      verify h fname l = .noMatch) := by
  refine ⟨?_, ?_, ?_, ?_⟩
  · intro hl
    subst hl
    rfl
  · intro l₁ r l₂ hdec hr hfirst
    have hne : l ≠ [] := by
      subst hdec
      simp
    have hfind : l.find? (fun r' => r'.hash == h) = some r := by
      rw [List.find?_eq_some]
      refine ⟨beq_iff_eq.mpr hr, l₁, l₂, hdec, fun a ha => ?_⟩
      simpa using hfirst a ha
    rw [verify, if_neg (fun hz => hne (List.length_eq_zero.mp hz)), hfind]
  · intro hne hnohash ⟨r, hrmem, hrname⟩
    have hfind : l.find? (fun r' => r'.hash == h) = none := by
      rw [List.find?_eq_none]
      intro a ha
      simpa using hnohash a ha
    have hmemfil : r ∈ l.filter (fun r' => r'.name == fname) :=
      List.mem_filter.mpr ⟨hrmem, beq_iff_eq.mpr hrname⟩
    have hlen : (l.filter (fun r' => r'.name == fname)).length ≠ 0 := by
      intro hz
      rw [List.length_eq_zero] at hz
      rw [hz] at hmemfil
      exact absurd hmemfil (List.not_mem_nil r)
    refine ⟨l.filter (fun r' => r'.name == fname), ?_, List.filter_sublist l, ?_⟩
    · rw [verify, if_neg (fun hz => hne (List.length_eq_zero.mp hz)), hfind]
      simp only [if_pos hlen]
    · intro a
      rw [List.mem_filter]
      simp
  · intro hne hnohash hnoname
    have hfind : l.find? (fun r' => r'.hash == h) = none := by
      rw [List.find?_eq_none]
      intro a ha
      simpa using hnohash a ha
    have hfil : l.filter (fun r' => r'.name == fname) = [] := by
      rw [List.filter_eq_nil_iff]
      intro a ha
      simpa using hnoname a ha
    rw [verify, if_neg (fun hz => hne (List.length_eq_zero.mp hz)), hfind]
    simp only [hfil]
    simp

/-- Witness for C1 at a concrete input: with a two-record store whose
first record carries the digest, verify reports MATCH with that
record. -/
theorem verify_decision_witness :
    verify "abc" "other.txt" [sampleRec, sampleRec2] = .matched sampleRec :=
  (verify_decision "abc" "other.txt" [sampleRec, sampleRec2]).2.1
    [] sampleRec [sampleRec2] rfl rfl (by decide)

/-- C9: quick-verify, given that the pre-selected record is the (unique)
record in the store with the selected id, reports MATCH exactly when the
computed digest equals that record's hash and MISMATCH otherwise, and
its outcome depends only on the looked-up record, never on the rest of
the store. -/
theorem quickVerify_spec (l : List BaselineRecord) (id h : String)
    (rec : BaselineRecord) (hmem : rec ∈ l) (hid : rec.id = id)
    (huniq : ∀ r ∈ l, r.id = id → r = rec) :
    (h = rec.hash → quickVerify l id h = some (.qmatched rec)) ∧
    (h ≠ rec.hash → quickVerify l id h = some (.qmismatch rec)) ∧
    (∀ l', (∀ r ∈ l', r.id = id → r = rec) → rec ∈ l' →
      quickVerify l' id h = quickVerify l id h) := by
  have hfind : ∀ m : List BaselineRecord, rec ∈ m → (∀ r ∈ m, r.id = id → r = rec) →
      m.find? (fun r => r.id == id) = some rec := by
    intro m hm hu
    cases hf : m.find? (fun r => r.id == id) with
    | none =>
      exfalso
      have := List.find?_eq_none.mp hf rec hm
      exact this (beq_iff_eq.mpr hid)
    | some x =>
      have hbx := List.find?_some hf
      have hx : x.id = id := by simpa using hbx
      have hxm : x ∈ m := List.mem_of_find?_eq_some hf
      rw [hu x hxm hx]
  have hfl : l.find? (fun r => r.id == id) = some rec := hfind l hmem huniq
  refine ⟨?_, ?_, ?_⟩
  · intro heq
    simp [quickVerify, hfl, heq]
  · intro hne
    simp [quickVerify, hfl, hne]
  · intro l' hu' hm'
    simp only [quickVerify, hfl, hfind l' hm' hu']

/-- Witness for C9 at a concrete input: quick-verify of a digest equal
to the selected record's hash reports MATCH with that record. -/
theorem quickVerify_spec_witness :
    quickVerify [sampleRec, sampleRec2] "id1" "def" = some (.qmatched sampleRec2) :=
  (quickVerify_spec [sampleRec, sampleRec2] "id1" "def" sampleRec2
    (by decide) (by decide) (by decide)).1 rfl

/-- C3 counterexample: a storage entry holding the valid JSON text "5"
is malformed as a record collection, yet `loadRecords` returns the
number 5 — a non-sequence value — rather than the empty sequence. -/
theorem loadRecords_counterexample :
    loadRecordsRaw badStore = Json.num 5 ∧
    (loadRecordsRaw badStore).isArr = false ∧
    loadRecordsRaw badStore ≠ Json.arr [] := by
  refine ⟨rfl, rfl, ?_⟩
  intro hcontra
  have : (Json.num 5).isArr = (Json.arr []).isArr := by
    rw [← hcontra]
    rfl
  simp [Json.isArr] at this

/-- C3 amended: `loadRecords` returns the empty sequence when the entry
is absent or its content is not syntactically valid JSON (the parse
throws); content that parses to any JSON value is returned as-is, even
when that value is not a record collection. -/
theorem loadRecords_amended (s : Storage) :
    (s STORE_KEY = none → loadRecordsRaw s = Json.arr []) ∧
    (s STORE_KEY = some .invalid → loadRecordsRaw s = Json.arr []) ∧
    (∀ j, s STORE_KEY = some (.parses j) → loadRecordsRaw s = j) := by
  refine ⟨?_, ?_, ?_⟩
  · intro hk
    rw [loadRecordsRaw, hk]
  · intro hk
    rw [loadRecordsRaw, hk]
  · intro j hk
    rw [loadRecordsRaw, hk]

/-- Witness for the amended C3 at a concrete input: loading from the
storage with no entry yields the empty array. -/
theorem loadRecords_amended_witness :
    loadRecordsRaw emptyStore = Json.arr [] :=
  (loadRecords_amended emptyStore).1 rfl

/-- C2 counterexample: the persisted JSON object for a record carries
the key "hash", not "digest": its key list is
[id, name, size, lastModified, hash, savedAt], and "digest" is not among
them, so the claimed field set {id, name, size, lastModified, digest,
savedAt} is wrong. -/
theorem record_fields_counterexample :
    Json.keys (recordToJson sampleRec) =
      ["id", "name", "size", "lastModified", "hash", "savedAt"] ∧
    "digest" ∉ Json.keys (recordToJson sampleRec) := by
  constructor
  · rfl
  · decide

/-- C2 amended: every persisted (and exported) record is a JSON object
with exactly the fields {id, name, size, lastModified, hash, savedAt} —
the digest is stored under the key "hash" — of JSON-primitive types
(string, string, number, number, string, number), and the persisted
state is a single keyed entry (only STORE_KEY is written) holding a JSON
array of such objects, which is also what the export serializes. -/
theorem record_fields_amended (r : BaselineRecord) (l : List BaselineRecord)
    (s : Storage) :
    Json.fieldTypes (recordToJson r) =
      [("id", "string"), ("name", "string"), ("size", "number"),
       ("lastModified", "number"), ("hash", "string"), ("savedAt", "number")] ∧
    (saveRecords s l) STORE_KEY = some (.parses (Json.arr (l.map recordToJson))) ∧
    (∀ k, k ≠ STORE_KEY → (saveRecords s l) k = s k) ∧
    exportedJson (saveRecords s l) = Json.arr (l.map recordToJson) := by
  refine ⟨rfl, ?_, ?_, ?_⟩
  · rw [saveRecords, setItem, if_pos rfl]
    rfl
  · intro k hk
    rw [saveRecords, setItem, if_neg hk]
  · rw [exportedJson, loadRecords_saveRecords]
    rfl

/-- Witness for the amended C2 at a concrete input: saving under a key
other than STORE_KEY is untouched. -/
theorem record_fields_amended_witness :
    (saveRecords emptyStore [sampleRec]) "other" = emptyStore "other" :=
  (record_fields_amended sampleRec [sampleRec] emptyStore).2.2.1 "other" (by decide)

set_option maxRecDepth 8000 in
/-- Each byte value below 256 hex-encodes to exactly two characters, all
of them lowercase hex digits (checked exhaustively). -/
theorem byteToHex_len_mem :
    ∀ b < 256, (byteToHex b).length = 2 ∧ ∀ c ∈ (byteToHex b).data, c ∈ hexChars := by
  decide

/-- The characters of `toHex` are the concatenation of the per-byte
encodings. -/
theorem toHex_data (bytes : List Nat) :
    (toHex bytes).data = (bytes.map (fun b => (byteToHex b).data)).flatten := by
  rw [toHex, String.data_join, List.map_map]
  rfl

/-- `toHex` of an n-byte buffer has exactly 2n characters. -/
theorem toHex_length (bytes : List Nat) :
    (∀ b ∈ bytes, b < 256) → (toHex bytes).length = 2 * bytes.length := by
  induction bytes with
  | nil => intro _; rfl
  | cons b bs ih =>
    intro h
    have hb : b < 256 := h b (List.mem_cons_self b bs)
    have hbs : ∀ x ∈ bs, x < 256 := fun x hx => h x (List.mem_cons_of_mem b hx)
    show (toHex (b :: bs)).data.length = 2 * (b :: bs).length
    rw [toHex_data, List.map_cons, List.flatten_cons, List.length_append]
    have h2 : (byteToHex b).data.length = 2 := (byteToHex_len_mem b hb).1
    have h3 : (toHex bs).data.length = 2 * bs.length := ih hbs
    rw [toHex_data] at h3
    rw [h2, h3, List.length_cons]
    omega

/-- Every character of `toHex` of a byte buffer is a lowercase hex
digit. -/
theorem toHex_chars (bytes : List Nat) :
    (∀ b ∈ bytes, b < 256) → ∀ c ∈ (toHex bytes).data, c ∈ hexChars := by
  intro h c hc
  rw [toHex_data] at hc
  obtain ⟨piece, hpiece, hcpiece⟩ := List.mem_flatten.mp hc
  obtain ⟨b, hb, rfl⟩ := List.mem_map.mp hpiece
  exact (byteToHex_len_mem b (h b hb)).2 c hcpiece

/-- C8: the digest computation is deterministic — identical inputs give
identical output — and on every well-formed SHA-256 result (a 32-byte
buffer) the output is a string of exactly 64 lowercase hexadecimal
characters, each byte contributing exactly two zero-padded digits. -/
theorem sha256OfFile_spec (sha : List Nat → List Nat) (file file' : List Nat)
    (hlen : (sha file).length = 32) (hbytes : ∀ b ∈ sha file, b < 256)
    (hfiles : file = file') :
    sha256OfFile sha file = sha256OfFile sha file' ∧
    (sha256OfFile sha file).length = 64 ∧
    (∀ c ∈ (sha256OfFile sha file).data, c ∈ hexChars) ∧
    (∀ b < 256, (byteToHex b).length = 2) := by
  refine ⟨by rw [hfiles], ?_, ?_, fun b hb => (byteToHex_len_mem b hb).1⟩
  · rw [sha256OfFile, toHex_length (sha file) hbytes, hlen]
  · exact toHex_chars (sha file) hbytes

/-- Witness for C8 at a concrete input: the all-zero 32-byte buffer
digests to a 64-character string. -/
theorem sha256OfFile_spec_witness :
    (sha256OfFile (fun _ => List.replicate 32 0) []).length = 64 :=
  (sha256OfFile_spec (fun _ => List.replicate 32 0) [] []
    (by decide) (by decide) rfl).2.1

end IntegrityChecker
